import Mathlib

/-!
Shallow embedding of the in-memory task store of the TO_DO_APP repository
(`src/services/task.service.ts`, with the data model from
`src/models/task.model.ts`), together with proofs of the specification
claims about it.

Modelling conventions:
* `uuidv4()` and `new Date()` are impure calls; in the embedding they become
  explicit parameters (`newId`, `now`) of the operations that use them.
  Identifiers are modelled as `Nat` (they are opaque strings in the source),
  timestamps as `Nat`.
* JavaScript `Array.prototype.slice`, `String.prototype.toLowerCase` and
  `String.prototype.includes` are modelled by `jsSlice`, `jsToLower` and
  `jsIncludes` below, keeping the negative-index semantics of `slice`.
* The truthiness tests `if (status)` / `if (title)` become a `match` on an
  `Option`; a present but empty title string is falsy in JavaScript, so the
  title filter is skipped in that case, exactly as in the source.
-/

namespace TodoApp

/-- Enumeration of task statuses, from `task.model.ts`. -/
inductive TaskStatus
  | PENDING
  | IN_PROGRESS
  | COMPLETED
deriving DecidableEq

/-- A task record, from the `Task` interface of `task.model.ts`.
Identifiers and timestamps are modelled as `Nat`. -/
structure Task where
  id : Nat
  title : String
  description : String
  status : TaskStatus
  createdAt : Nat
  updatedAt : Nat
deriving DecidableEq

/-- Model of `String.prototype.toLowerCase` (character-wise lowering;
faithful on the ASCII data the service handles). -/
def jsToLower (s : String) : String :=
  ⟨s.data.map Char.toLower⟩

/-- Char-list helper: does `sub` occur at the start of `l`? -/
def subAtStart : List Char → List Char → Bool
  | _, [] => true
  | [], _ :: _ => false
  | c :: cs, d :: ds => c == d && subAtStart cs ds

/-- Char-list helper: does `sub` occur contiguously anywhere in `l`? -/
def hasSubstring : List Char → List Char → Bool
  | [], sub => subAtStart [] sub
  | c :: cs, sub => subAtStart (c :: cs) sub || hasSubstring cs sub

/-- Model of `String.prototype.includes`: `jsIncludes s sub` is true when
`sub` occurs contiguously in `s`. -/
def jsIncludes (s sub : String) : Bool :=
  hasSubstring s.data sub.data

/-- Index resolution of `Array.prototype.slice`: a negative index is an
offset from the end of the array, and both indices are clamped into
`[0, length]`, as in the ECMAScript standard. -/
def jsSliceIdx (len : Nat) (i : Int) : Int :=
  if i < 0 then max ((len : Int) + i) 0 else min i (len : Int)

/-- Model of `Array.prototype.slice(start, stop)` with integer arguments:
resolve both indices with `jsSliceIdx`, then return the elements of the
half-open range between them. -/
def jsSlice {α : Type} (l : List α) (start stop : Int) : List α :=
  (l.drop (jsSliceIdx l.length start).toNat).take
    (jsSliceIdx l.length stop - jsSliceIdx l.length start).toNat

/-- The status filter of `getAll`: `if (status) { tasks.filter(t => t.status === status) }`.
An absent `status` query parameter is `none`; every enum value is a non-empty
string, hence truthy. -/
def filterByStatus (status? : Option TaskStatus) (l : List Task) : List Task :=
  match status? with
  | none => l
  | some st => l.filter (fun task => task.status == st)

/-- The title filter of `getAll`:
`if (title) { tasks.filter(t => t.title.toLowerCase().includes(title.toLowerCase())) }`.
A present but empty string is falsy in JavaScript, so it skips the filter. -/
def filterByTitle (title? : Option String) (l : List Task) : List Task :=
  match title? with
  | none => l
  | some t =>
      if t = "" then l
      else l.filter (fun task => jsIncludes (jsToLower task.title) (jsToLower t))

/-- The shape of the object returned by `getAll`. -/
structure ListResult where
  total : Nat
  page : Int
  limit : Int
  data : List Task
deriving DecidableEq

/-- Embedding of `getAll` from `task.service.ts`: filter by status, then by
title, then paginate the filtered list with
`slice((page-1)*limit, page*limit)`; `total` is the filtered count. -/
def getAll (tasks : List Task) (status? : Option TaskStatus)
    (title? : Option String) (page : Int := 1) (limit : Int := 10) : ListResult :=
  let filteredTasks := filterByTitle title? (filterByStatus status? tasks)
  let startIndex := (page - 1) * limit
  let endIndex := page * limit
  { total := filteredTasks.length
    page := page
    limit := limit
    data := jsSlice filteredTasks startIndex endIndex }

/-- Embedding of `getById`: `tasks.find(task => task.id === id)`. -/
def getById (tasks : List Task) (id : Nat) : Option Task :=
  tasks.find? (fun task => task.id == id)

/-- Embedding of `create`: builds the new record with status `PENDING` and
`createdAt = updatedAt = now`, pushes it at the end of the collection and
returns it. The identifier produced by `uuidv4()` and the clock reading
`new Date()` are the explicit parameters `newId` and `now`. The function is
total: `create` never fails. -/
def create (tasks : List Task) (newId : Nat) (now : Nat)
    (title description : String) : Task × List Task :=
  let newTask : Task :=
    { id := newId
      title := title
      description := description
      status := TaskStatus.PENDING
      createdAt := now
      updatedAt := now }
  (newTask, tasks ++ [newTask])

/-- A `Partial<Task>` value: each field of `Task` optionally present.
The route layer validates update bodies against `updateTaskSchema`, which
only admits `title`, `description` and `status`, but the store-level type
admits every field, as in the source. -/
structure TaskPatch where
  id? : Option Nat := none
  title? : Option String := none
  description? : Option String := none
  status? : Option TaskStatus := none
  createdAt? : Option Nat := none
  updatedAt? : Option Nat := none

/-- The spread merge `{ ...old, ...data, updatedAt: new Date() }`: fields
present in the patch override the old record, and `updatedAt` is set last,
hence always equals `now`. -/
def mergeTask (old : Task) (p : TaskPatch) (now : Nat) : Task :=
  { id := p.id?.getD old.id
    title := p.title?.getD old.title
    description := p.description?.getD old.description
    status := p.status?.getD old.status
    createdAt := p.createdAt?.getD old.createdAt
    updatedAt := now }

/-- Embedding of `update`: `findIndex` by id (`find?`/`findIdx` pair: `find?`
is `none` exactly when `findIndex` returns `-1`), return `null` when absent,
otherwise overwrite the record at the found index with the merged record and
return it. -/
def update (tasks : List Task) (id : Nat) (p : TaskPatch) (now : Nat) :
    Option Task × List Task :=
  match tasks.find? (fun task => task.id == id) with
  | none => (none, tasks)
  | some old =>
      let merged := mergeTask old p now
      (some merged, tasks.set (tasks.findIdx (fun task => task.id == id)) merged)

/-- Embedding of `remove`: keep the tasks whose id differs, and report
whether the collection shrank. -/
def remove (tasks : List Task) (id : Nat) : List Task × Bool :=
  let newTasks := tasks.filter (fun task => task.id != id)
  (newTasks, decide (newTasks.length < tasks.length))

/-- States reachable from the empty store by sequences of store operations,
together with a clock bound: every operation happens at a time `now` no
earlier than the previous one (`new Date()` is monotone), `uuidv4()` yields
an identifier not already live, and update bodies have passed
`updateTaskSchema`, which only admits the `title`, `description` and
`status` fields. `getById` and `getAll` do not change the store. -/
inductive Reachable : List Task → Nat → Prop
  | init : Reachable [] 0
  | step_create (tasks : List Task) (clock newId now : Nat)
      (title description : String) :
      Reachable tasks clock → clock ≤ now → newId ∉ tasks.map Task.id →
      Reachable (create tasks newId now title description).2 now
  | step_update (tasks : List Task) (clock : Nat) (id now : Nat) (p : TaskPatch) :
      Reachable tasks clock → clock ≤ now →
      p.id? = none → p.createdAt? = none →
      Reachable (update tasks id p now).2 now
  | step_remove (tasks : List Task) (clock id : Nat) :
      Reachable tasks clock → Reachable (remove tasks id).1 clock

/-- A store of `n` distinct generic tasks, used for concrete instances. -/
def mkTask (n : Nat) : Task :=
  { id := n
    title := "task"
    description := "desc"
    status := TaskStatus.PENDING
    createdAt := 0
    updatedAt := 0 }

/-- A demo store of `n` tasks with ids `0, …, n-1`. -/
def demoTasks (n : Nat) : List Task :=
  (List.range n).map mkTask

/-- A concrete task used in scenario instances. -/
def demoMilkTask : Task :=
  { id := 1
    title := "Buy milk"
    description := "2% milk"
    status := TaskStatus.PENDING
    createdAt := 0
    updatedAt := 0 }

/-- A second concrete task used in scenario instances. -/
def demoReportTask : Task :=
  { id := 2
    title := "Write report"
    description := "Q3 report"
    status := TaskStatus.PENDING
    createdAt := 0
    updatedAt := 0 }

/-- A concrete two-task store. -/
def demoStore : List Task :=
  [demoMilkTask, demoReportTask]

/-- A concrete patch that only sets `status`, as in
`update(id, {status: "COMPLETED"})`. -/
def demoPatch : TaskPatch :=
  { status? := some TaskStatus.COMPLETED }

/-! ### Helper lemmas about the JavaScript primitives -/

/-- Resolving a non-negative index clamps it to the length. -/
theorem jsSliceIdx_coe (len a : Nat) :
    jsSliceIdx len (a : Int) = ((min a len : Nat) : Int) := by
  unfold jsSliceIdx
  rw [if_neg (by exact Int.not_lt.mpr (Int.natCast_nonneg a))]
  omega

/-- A resolved slice index is never negative. -/
theorem jsSliceIdx_nonneg (len : Nat) (i : Int) : 0 ≤ jsSliceIdx len i := by
  unfold jsSliceIdx
  split
  · exact le_max_right _ _
  · exact le_min (by omega) (Int.natCast_nonneg len)

/-- Clamping both endpoints of a drop/take range to the length does not
change the selected elements. -/
theorem drop_take_clamp {α : Type} (l : List α) (a b : Nat) :
    (l.drop (min a l.length)).take (min b l.length - min a l.length)
      = (l.drop a).take (b - a) := by
  rcases Nat.le_total l.length a with h | h
  · rw [Nat.min_eq_right h, List.drop_length, List.drop_eq_nil_of_le h,
      List.take_nil, List.take_nil]
  · rw [Nat.min_eq_left h]
    rcases Nat.le_total b l.length with hb | hb
    · rw [Nat.min_eq_left hb]
    · rw [Nat.min_eq_right hb, List.take_of_length_le, List.take_of_length_le]
      · simpa [List.length_drop] using Nat.sub_le_sub_right hb a
      · simp [List.length_drop]

/-- On natural-number endpoints `jsSlice` is drop-then-take. -/
theorem jsSlice_coe {α : Type} (l : List α) (a b : Nat) :
    jsSlice l (a : Int) (b : Int) = (l.drop a).take (b - a) := by
  unfold jsSlice
  rw [jsSliceIdx_coe, jsSliceIdx_coe, Int.toNat_ofNat, Int.toNat_sub]
  exact drop_take_clamp l a b

/-- Slicing up to stop index `0` yields the empty list. -/
theorem jsSlice_stop_zero {α : Type} (l : List α) (a : Int) :
    jsSlice l a 0 = [] := by
  unfold jsSlice
  have he : jsSliceIdx l.length 0 = 0 := by
    unfold jsSliceIdx
    rw [if_neg (by omega)]
    exact min_eq_left (Int.natCast_nonneg l.length)
  rw [he]
  have hs : 0 ≤ jsSliceIdx l.length a := jsSliceIdx_nonneg l.length a
  have : (0 - jsSliceIdx l.length a).toNat = 0 := by omega
  rw [this, List.take_zero]

/-- Slicing from a start index at or past the length yields the empty list. -/
theorem jsSlice_start_ge {α : Type} (l : List α) (a b : Int)
    (h : (l.length : Int) ≤ a) : jsSlice l a b = [] := by
  unfold jsSlice
  have hs : jsSliceIdx l.length a = (l.length : Int) := by
    unfold jsSliceIdx
    rw [if_neg (by omega)]
    exact min_eq_right h
  rw [hs]
  rw [Int.toNat_natCast, List.drop_length, List.take_nil]

/-- Every element of a slice is an element of the original list. -/
theorem mem_of_mem_jsSlice {α : Type} {l : List α} {a b : Int} {x : α}
    (h : x ∈ jsSlice l a b) : x ∈ l := by
  unfold jsSlice at h
  exact List.mem_of_mem_drop (List.mem_of_mem_take h)

/-- Taking `m` elements and then `k` more is taking `m + k` elements. -/
theorem take_add_eq {α : Type} (l : List α) (m k : Nat) :
    l.take m ++ (l.drop m).take k = l.take (m + k) := by
  have h1 : (l.take (m + k)).take m = l.take m := by
    rw [List.take_take, Nat.min_eq_left (Nat.le_add_right m k)]
  have h2 : (l.drop m).take k = (l.take (m + k)).drop m := List.take_drop m k l
  rw [← h1, h2, List.take_append_drop]

/-- The empty character list occurs in every character list. -/
theorem hasSubstring_nil (l : List Char) : hasSubstring l [] = true := by
  cases l with
  | nil => rfl
  | cons c cs => simp [hasSubstring, subAtStart]

/-- Every string contains the empty string. -/
theorem jsIncludes_empty (s : String) : jsIncludes s "" = true :=
  hasSubstring_nil s.data

/-- Filtering strictly shrinks a list exactly when some element fails the
predicate. -/
theorem length_filter_lt_iff {α : Type} (p : α → Bool) (l : List α) :
    (l.filter p).length < l.length ↔ ∃ x ∈ l, ¬ p x = true := by
  induction l with
  | nil => simp
  | cons x xs ih =>
    by_cases hx : p x
    · simpa [List.filter_cons, hx, Nat.succ_lt_succ_iff] using ih
    · refine ⟨fun _ => ⟨x, List.mem_cons_self x xs, by simp [hx]⟩, fun _ => ?_⟩
      simp only [List.filter_cons, hx, List.length_cons]
      exact Nat.lt_succ_of_le (List.length_filter_le p xs)

/-! ### The claims -/

/-- C9: `list` computes `startIndex = (page-1)*limit`, `endIndex = page*limit`
and returns the filtered set's slice `[startIndex, endIndex)`; for every
out-of-range page (start index at or past the filtered length) the `data`
array is empty. No error can be raised: `getAll` is a total function. -/
theorem getAll_pagination_policy (tasks : List Task) (status? : Option TaskStatus)
    (title? : Option String) (page limit : Int) :
    (getAll tasks status? title? page limit).data =
      jsSlice (filterByTitle title? (filterByStatus status? tasks))
        ((page - 1) * limit) (page * limit) ∧
    (((filterByTitle title? (filterByStatus status? tasks)).length : Int) ≤
        (page - 1) * limit →
      (getAll tasks status? title? page limit).data = []) := by
  refine ⟨rfl, fun h => ?_⟩
  exact jsSlice_start_ge _ _ _ h

/-- Witness for C9 at a concrete out-of-range input: a three-task store has
no fifth page of size ten. -/
theorem getAll_pagination_policy_witness :
    (getAll (demoTasks 3) none none 5 10).data = [] :=
  (getAll_pagination_policy (demoTasks 3) none none 5 10).2 (by decide)

/-- C10: `list` does not reject, clamp or default a `page` below 1. Page `0`
with a positive limit always yields an empty `data` array, but because
`Array.prototype.slice` treats negative indices as offsets from the end,
page `-1` with limit `10` on a 30-task store returns the ten tasks that sit
between offsets `-20` and `-10` from the end of the filtered set — a
non-empty `data` array. -/
theorem getAll_negative_page :
    (∀ (tasks : List Task) (status? : Option TaskStatus) (title? : Option String)
        (limit : Int), 0 < limit →
        (getAll tasks status? title? 0 limit).data = []) ∧
    (getAll (demoTasks 30) none none (-1) 10).data ≠ [] ∧
    (getAll (demoTasks 30) none none (-1) 10).data =
      ((demoTasks 30).drop ((demoTasks 30).length - 20)).take 10 := by
  refine ⟨fun tasks status? title? limit _ => ?_, by decide, by decide⟩
  show jsSlice _ (((0 : Int) - 1) * limit) ((0 : Int) * limit) = []
  rw [Int.zero_mul]
  exact jsSlice_stop_zero _ _

/-- Witness for C10: page `0` with positive limit on a concrete store. -/
theorem getAll_negative_page_witness :
    (getAll (demoTasks 5) none none 0 10).data = [] :=
  getAll_negative_page.1 (demoTasks 5) none none 10 (by decide)

/-- C7: `remove id` reports `true` exactly when a task with that id was
present, the resulting store holds no task with that id, and a second
`remove` with the same id therefore reports `false`. -/
theorem remove_returns_iff (tasks : List Task) (id : Nat) :
    ((remove tasks id).2 = true ↔ ∃ t ∈ tasks, t.id = id) ∧
    (∀ t ∈ (remove tasks id).1, t.id ≠ id) ∧
    (remove (remove tasks id).1 id).2 = false := by
  refine ⟨?_, ?_, ?_⟩
  · show decide ((tasks.filter fun task => task.id != id).length < tasks.length) = true
      ↔ ∃ t ∈ tasks, t.id = id
    rw [decide_eq_true_iff, length_filter_lt_iff]
    constructor
    · rintro ⟨x, hx, hpx⟩
      exact ⟨x, hx, by simpa using hpx⟩
    · rintro ⟨x, hx, hpx⟩
      exact ⟨x, hx, by simp [hpx]⟩
  · intro t ht
    have := List.mem_filter.mp ht
    simpa using this.2
  · show decide ((((tasks.filter fun task => task.id != id).filter
        fun task => task.id != id)).length <
        (tasks.filter fun task => task.id != id).length) = false
    rw [List.filter_eq_self.mpr (fun a ha => (List.mem_filter.mp ha).2)]
    simp

/-- Witness for C7: removing id `1` from a two-task store succeeds, and
removing it again fails. -/
theorem remove_returns_iff_witness :
    (remove (demoTasks 2) 1).2 = true ∧ (remove (remove (demoTasks 2) 1).1 1).2 = false :=
  ⟨(remove_returns_iff (demoTasks 2) 1).1.mpr ⟨mkTask 1, by decide, rfl⟩,
   (remove_returns_iff (demoTasks 2) 1).2.2⟩

/-- C3: `create` returns a task with status `PENDING` regardless of caller
input (the caller can only supply `title` and `description`), with
`createdAt = updatedAt`, with an id not previously live (assuming the
freshness of `uuidv4`), appended at the end of the collection with all
previously stored tasks unchanged and in their prior order; id uniqueness is
preserved. `create` is a total function: it never fails. -/
theorem create_postcondition (tasks : List Task) (newId now : Nat)
    (title description : String)
    (hfresh : newId ∉ tasks.map Task.id)
    (hnodup : (tasks.map Task.id).Nodup) :
    (create tasks newId now title description).1.status = TaskStatus.PENDING ∧
    (create tasks newId now title description).1.createdAt =
      (create tasks newId now title description).1.updatedAt ∧
    (create tasks newId now title description).1.id ∉ tasks.map Task.id ∧
    ((create tasks newId now title description).2.map Task.id).Nodup ∧
    (create tasks newId now title description).2 =
      tasks ++ [(create tasks newId now title description).1] := by
  refine ⟨rfl, rfl, hfresh, ?_, rfl⟩
  show ((tasks ++ [_]).map Task.id).Nodup
  rw [List.map_append]
  rw [List.nodup_append]
  refine ⟨hnodup, List.nodup_singleton _, ?_⟩
  intro a ha hb
  simp only [List.map_cons, List.map_nil, List.mem_singleton] at hb
  exact hfresh (hb ▸ ha)

/-- Witness for C3 at a concrete input. -/
theorem create_postcondition_witness :
    (create (demoTasks 2) 7 5 "Buy milk" "2% milk").1.status = TaskStatus.PENDING ∧
    ((create (demoTasks 2) 7 5 "Buy milk" "2% milk").2.map Task.id).Nodup :=
  ⟨(create_postcondition (demoTasks 2) 7 5 "Buy milk" "2% milk" (by decide) (by decide)).1,
   (create_postcondition (demoTasks 2) 7 5 "Buy milk" "2% milk" (by decide)
      (by decide)).2.2.2.1⟩

/-- C8: `getById` with the id returned by a prior `create` (fresh id, no
intervening mutation) yields exactly the record `create` returned; `getById`
with any id not present in the store yields `none`, the only failure the
`Option` result type can express. -/
theorem getById_roundtrip (tasks : List Task) (newId now : Nat)
    (title description : String)
    (hfresh : newId ∉ tasks.map Task.id) :
    getById (create tasks newId now title description).2 newId =
      some (create tasks newId now title description).1 ∧
    (∀ id, id ∉ tasks.map Task.id → getById tasks id = none) := by
  have habsent : ∀ id, id ∉ tasks.map Task.id →
      tasks.find? (fun task => task.id == id) = none := by
    intro id hid
    refine List.find?_eq_none.mpr fun x hx => ?_
    simp only [beq_iff_eq]
    intro he
    exact hid (he ▸ List.mem_map_of_mem Task.id hx)
  constructor
  · show ((tasks ++ [(create tasks newId now title description).1]).find?
        fun task => task.id == newId) =
      some (create tasks newId now title description).1
    rw [List.find?_append, habsent newId hfresh]
    simp [create]
  · exact fun id hid => habsent id hid

/-- Witness for C8 at a concrete input. -/
theorem getById_roundtrip_witness :
    getById (create (demoTasks 2) 9 3 "Write report" "Q3 report").2 9 =
      some (create (demoTasks 2) 9 3 "Write report" "Q3 report").1 :=
  (getById_roundtrip (demoTasks 2) 9 3 "Write report" "Q3 report" (by decide)).1

/-- C2: every task returned by `list(status = s)` has status exactly `s`;
every task returned by `list(title = t)` has a title containing `t`
case-insensitively (for an empty `t` the source skips the filter, which is
equivalent, since every title contains the empty string); when both filters
are given, the data is the paginated slice of the collection filtered first
by status and then by title; and `total` is the size of the filtered set
before pagination. -/
theorem getAll_filter_correct (tasks : List Task) (st : TaskStatus) (t : String)
    (status? : Option TaskStatus) (title? : Option String) (page limit : Int) :
    (∀ x ∈ (getAll tasks (some st) none page limit).data, x.status = st) ∧
    (∀ x ∈ (getAll tasks none (some t) page limit).data,
      jsIncludes (jsToLower x.title) (jsToLower t) = true) ∧
    ((getAll tasks (some st) (some t) page limit).data =
      jsSlice ((tasks.filter fun task => task.status == st).filter
          (fun task => jsIncludes (jsToLower task.title) (jsToLower t)))
        ((page - 1) * limit) (page * limit)) ∧
    ((getAll tasks status? title? page limit).total =
      (filterByTitle title? (filterByStatus status? tasks)).length) := by
  have hlow : jsToLower "" = "" := rfl
  have hempty : ∀ l : List Task,
      (l.filter fun task => jsIncludes (jsToLower task.title) (jsToLower "")) = l := by
    intro l
    refine List.filter_eq_self.mpr fun a _ => ?_
    rw [hlow]
    exact jsIncludes_empty _
  refine ⟨?_, ?_, ?_, rfl⟩
  · intro x hx
    have hx' : x ∈ filterByTitle none (filterByStatus (some st) tasks) :=
      mem_of_mem_jsSlice hx
    have : x ∈ tasks.filter fun task => task.status == st := hx'
    simpa using (List.mem_filter.mp this).2
  · intro x hx
    have hx' : x ∈ filterByTitle (some t) (filterByStatus none tasks) :=
      mem_of_mem_jsSlice hx
    by_cases ht : t = ""
    · subst ht
      rw [hlow]
      exact jsIncludes_empty _
    · have : x ∈ tasks.filter
          fun task => jsIncludes (jsToLower task.title) (jsToLower t) := by
        simpa [filterByTitle, filterByStatus, ht] using hx'
      exact (List.mem_filter.mp this).2
  · have harg : filterByTitle (some t) (filterByStatus (some st) tasks) =
        (tasks.filter fun task => task.status == st).filter
          (fun task => jsIncludes (jsToLower task.title) (jsToLower t)) := by
      by_cases ht : t = ""
      · subst ht
        simp [filterByTitle, filterByStatus, hempty]
      · simp [filterByTitle, filterByStatus, ht]
    show jsSlice (filterByTitle (some t) (filterByStatus (some st) tasks))
        ((page - 1) * limit) (page * limit) = _
    rw [harg]

/-- Witness for C2: in the two-task scenario store, the task returned by
`list(title = "report")` indeed contains `"report"` in its title. -/
theorem getAll_filter_correct_witness :
    jsIncludes (jsToLower demoReportTask.title) (jsToLower "report") = true :=
  (getAll_filter_correct demoStore TaskStatus.PENDING "report" none none 1 10).2.1
    demoReportTask (by decide)

/-- C1 (amended): for every store state, optional filters and every fixed
positive limit, concatenating the `data` arrays returned by `list` for pages
`1, 2, …, P` — any `P` with `P * limit` at least the filtered count — yields
exactly the filtered set (status filter applied, then title filter) in
original insertion order, with no duplicates and no omissions. The claim as
frozen quantifies over *every* fixed limit; `limit = 0` refutes it (see the
counterexample), so the limit is assumed positive here. -/
theorem getAll_pagination_reconstruction (tasks : List Task)
    (status? : Option TaskStatus) (title? : Option String) (m P : Nat)
    (hm : 1 ≤ m)
    (hP : (filterByTitle title? (filterByStatus status? tasks)).length ≤ P * m) :
    ((List.range P).map fun (k : Nat) =>
        (getAll tasks status? title? ((k : Int) + 1) (m : Int)).data).flatten =
      filterByTitle title? (filterByStatus status? tasks) := by
  have key : ∀ Q : Nat, ((List.range Q).map fun (k : Nat) =>
      (getAll tasks status? title? ((k : Int) + 1) (m : Int)).data).flatten =
      (filterByTitle title? (filterByStatus status? tasks)).take (Q * m) := by
    intro Q
    induction Q with
    | zero => simp
    | succ q ih =>
      rw [List.range_succ, List.map_append, List.flatten_append, ih]
      have hdata : (getAll tasks status? title? ((q : Int) + 1) (m : Int)).data =
          ((filterByTitle title? (filterByStatus status? tasks)).drop (q * m)).take m := by
        show jsSlice (filterByTitle title? (filterByStatus status? tasks))
            ((((q : Int) + 1) - 1) * (m : Int)) (((q : Int) + 1) * (m : Int)) = _
        have e1 : (((q : Int) + 1) - 1) * (m : Int) = ((q * m : Nat) : Int) := by
          push_cast
          ring
        have e2 : ((q : Int) + 1) * (m : Int) = (((q + 1) * m : Nat) : Int) := by
          push_cast
          ring
        have e3 : (q + 1) * m - q * m = m := by
          rw [Nat.add_mul, Nat.one_mul, Nat.add_sub_cancel_left]
        rw [e1, e2, jsSlice_coe, e3]
      simp only [List.map_cons, List.map_nil, List.flatten_cons, List.flatten_nil,
        List.append_nil, hdata]
      rw [take_add_eq]
      have e4 : q * m + m = (q + 1) * m := by
        rw [Nat.add_mul, Nat.one_mul]
      rw [e4]
  rw [key P, List.take_of_length_le hP]

/-- Witness for C1 at a concrete input: a three-task store is reconstructed
by two pages of size two. -/
theorem getAll_pagination_reconstruction_witness :
    ((List.range 2).map fun (k : Nat) =>
        (getAll (demoTasks 3) none none ((k : Int) + 1) ((2 : Nat) : Int)).data).flatten =
      filterByTitle none (filterByStatus none (demoTasks 3)) :=
  getAll_pagination_reconstruction (demoTasks 3) none none 2 2 (by decide) (by decide)

/-- Counterexample to C1 as frozen: with `limit = 0` — a value the claim's
quantification over "every fixed limit" admits and the store does not
reject — every page of a one-task store has empty `data`, so no
concatenation of pages reconstructs the filtered set, whose size (`total`)
is 1. -/
theorem getAll_pagination_reconstruction_counterexample :
    (getAll (demoTasks 1) none none 1 0).total = 1 ∧
    ∀ page : Int, (getAll (demoTasks 1) none none page 0).data = [] := by
  refine ⟨by decide, fun page => ?_⟩
  show jsSlice (filterByTitle none (filterByStatus none (demoTasks 1)))
      ((page - 1) * 0) (page * 0) = []
  simp only [Int.mul_zero]
  exact jsSlice_stop_zero _ _

/-- C4: when a task with the given id exists, `update` returns the record
obtained by shallow-merging exactly the provided fields over it; `updatedAt`
is unconditionally refreshed to `now`; `id` and `createdAt` (absent from a
validated patch) and every field not present in the patch keep their old
values; provided fields take the patch value; and every position of the
store other than the updated one is unchanged. -/
theorem update_partial_frame (tasks : List Task) (id : Nat) (p : TaskPatch)
    (now : Nat) (old : Task)
    (hfind : getById tasks id = some old)
    (hid : p.id? = none) (hcat : p.createdAt? = none) :
    (update tasks id p now).1 = some (mergeTask old p now) ∧
    (mergeTask old p now).id = old.id ∧
    (mergeTask old p now).createdAt = old.createdAt ∧
    (mergeTask old p now).updatedAt = now ∧
    (p.title? = none → (mergeTask old p now).title = old.title) ∧
    (p.description? = none → (mergeTask old p now).description = old.description) ∧
    (p.status? = none → (mergeTask old p now).status = old.status) ∧
    (∀ v, p.title? = some v → (mergeTask old p now).title = v) ∧
    (∀ v, p.description? = some v → (mergeTask old p now).description = v) ∧
    (∀ v, p.status? = some v → (mergeTask old p now).status = v) ∧
    ((update tasks id p now).2.length = tasks.length) ∧
    (∀ j : Nat, j ≠ tasks.findIdx (fun task => task.id == id) →
      ((update tasks id p now).2)[j]? = tasks[j]?) := by
  have hfind' : tasks.find? (fun task => task.id == id) = some old := hfind
  have h1 : (update tasks id p now).1 = some (mergeTask old p now) := by
    unfold update
    rw [hfind']
  have h2 : (update tasks id p now).2 =
      tasks.set (tasks.findIdx fun task => task.id == id) (mergeTask old p now) := by
    unfold update
    rw [hfind']
  refine ⟨h1, by simp [mergeTask, hid], by simp [mergeTask, hcat], rfl,
    fun h => by simp [mergeTask, h], fun h => by simp [mergeTask, h],
    fun h => by simp [mergeTask, h], fun v hv => by simp [mergeTask, hv],
    fun v hv => by simp [mergeTask, hv], fun v hv => by simp [mergeTask, hv],
    by rw [h2, List.length_set], ?_⟩
  intro j hj
  rw [h2]
  exact List.getElem?_set_ne (Ne.symm hj)

/-- Witness for C4: updating only the status of the milk task in the
two-task scenario store. -/
theorem update_partial_frame_witness :
    (update demoStore 1 demoPatch 5).1 = some (mergeTask demoMilkTask demoPatch 5) ∧
    (mergeTask demoMilkTask demoPatch 5).createdAt = demoMilkTask.createdAt ∧
    (mergeTask demoMilkTask demoPatch 5).title = demoMilkTask.title :=
  ⟨(update_partial_frame demoStore 1 demoPatch 5 demoMilkTask (by decide) rfl rfl).1,
   (update_partial_frame demoStore 1 demoPatch 5 demoMilkTask (by decide) rfl rfl).2.2.1,
   (update_partial_frame demoStore 1 demoPatch 5 demoMilkTask (by decide) rfl rfl).2.2.2.2.1
     rfl⟩

/-- The element found by `find?` sits at index `findIdx`. -/
theorem find?_getElem?_findIdx {α : Type} {p : α → Bool} {a : α} :
    ∀ {l : List α}, l.find? p = some a → l[l.findIdx p]? = some a := by
  intro l
  induction l with
  | nil => intro h; simp at h
  | cons x xs ih =>
    intro h
    by_cases hx : p x
    · rw [List.find?_cons_of_pos _ hx] at h
      simpa [List.findIdx_cons, hx] using h
    · rw [List.find?_cons_of_neg _ hx] at h
      simpa [List.findIdx_cons, hx] using ih h

/-- Writing back the value already stored at an index is the identity. -/
theorem set_of_getElem? {α : Type} : ∀ (l : List α) (i : Nat) (a : α),
    l[i]? = some a → l.set i a = l
  | [], _, _, h => by simp at h
  | x :: xs, 0, a, h => by
      simp only [List.getElem?_cons_zero, Option.some_inj] at h
      simp [h]
  | x :: xs, i + 1, a, h => by
      simp only [List.getElem?_cons_succ] at h
      simp [set_of_getElem? xs i a h]

/-- With a patch that does not carry `id` — the only kind the validation
layer lets through — `update` preserves the list of stored ids. -/
theorem update_map_id (tasks : List Task) (id : Nat) (p : TaskPatch) (now : Nat)
    (hid : p.id? = none) :
    (update tasks id p now).2.map Task.id = tasks.map Task.id := by
  unfold update
  cases hfind : tasks.find? (fun task => task.id == id) with
  | none => rfl
  | some old =>
    simp only
    rw [List.map_set]
    have hmid : (mergeTask old p now).id = old.id := by simp [mergeTask, hid]
    have hgp : (tasks.map Task.id)[tasks.findIdx fun task => task.id == id]? =
        some old.id := by
      rw [List.getElem?_map, find?_getElem?_findIdx hfind]
      rfl
    rw [hmid]
    exact set_of_getElem? _ _ _ hgp

/-- Core invariant of reachable states: live ids are pairwise distinct, and
every task satisfies `createdAt ≤ updatedAt ≤ clock`. -/
theorem reachable_inv {tasks : List Task} {clock : Nat}
    (h : Reachable tasks clock) :
    (tasks.map Task.id).Nodup ∧
    ∀ t ∈ tasks, t.createdAt ≤ t.updatedAt ∧ t.updatedAt ≤ clock := by
  induction h with
  | init => exact ⟨List.nodup_nil, by simp⟩
  | step_create tasks clock newId now title description hr hle hfresh ih =>
    constructor
    · show ((tasks ++ [_]).map Task.id).Nodup
      rw [List.map_append, List.nodup_append]
      refine ⟨ih.1, List.nodup_singleton _, ?_⟩
      intro a ha hb
      simp only [List.map_cons, List.map_nil, List.mem_singleton] at hb
      exact hfresh (hb ▸ ha)
    · intro t ht
      rcases List.mem_append.mp ht with h1 | h2
      · exact ⟨(ih.2 t h1).1, le_trans (ih.2 t h1).2 hle⟩
      · rw [List.mem_singleton] at h2
        subst h2
        exact ⟨le_refl _, le_refl _⟩
  | step_update tasks clock id now p hr hle hid hcat ih =>
    refine ⟨by rw [update_map_id tasks id p now hid]; exact ih.1, ?_⟩
    intro t ht
    revert ht
    unfold update
    cases hfind : tasks.find? (fun task => task.id == id) with
    | none =>
      intro ht
      exact ⟨(ih.2 t ht).1, le_trans (ih.2 t ht).2 hle⟩
    | some old =>
      intro ht
      simp only at ht
      rcases List.mem_or_eq_of_mem_set ht with hmem | heq
      · exact ⟨(ih.2 t hmem).1, le_trans (ih.2 t hmem).2 hle⟩
      · subst heq
        have hold : old ∈ tasks := List.mem_of_find?_eq_some hfind
        have h1 : (mergeTask old p now).createdAt = old.createdAt := by
          simp [mergeTask, hcat]
        have h2 : (mergeTask old p now).updatedAt = now := rfl
        refine ⟨?_, le_of_eq h2⟩
        rw [h1, h2]
        exact le_trans (ih.2 old hold).1 (le_trans (ih.2 old hold).2 hle)
  | step_remove tasks clock id hr ih =>
    constructor
    · exact List.Nodup.sublist ((List.filter_sublist tasks).map Task.id) ih.1
    · intro t ht
      exact ih.2 t (List.mem_of_mem_filter ht)

/-- C5: in every store state reachable by any sequence of store operations
(with fresh generated ids and validated update bodies), the live tasks have
pairwise distinct ids; and `update` — the only operation that rewrites a
stored record — leaves the stored ids untouched at every position, so each
task keeps the id the store assigned at its creation (`create` only appends
and `remove` only filters). -/
theorem id_integrity (tasks : List Task) (clock : Nat)
    (h : Reachable tasks clock) :
    (tasks.map Task.id).Nodup ∧
    ∀ (id now : Nat) (p : TaskPatch), p.id? = none →
      (update tasks id p now).2.map Task.id = tasks.map Task.id :=
  ⟨(reachable_inv h).1, fun id now p hid => update_map_id tasks id p now hid⟩

/-- Witness for C5: a state reached by one `create` from the empty store. -/
theorem id_integrity_witness :
    (((create [] 1 5 "Buy milk" "2% milk").2).map Task.id).Nodup :=
  (id_integrity (create [] 1 5 "Buy milk" "2% milk").2 5
    (Reachable.step_create [] 0 1 5 "Buy milk" "2% milk" Reachable.init
      (Nat.zero_le 5) (by simp))).1

/-- C6: in every reachable store state every task satisfies
`createdAt ≤ updatedAt`: `create` establishes it with
`createdAt = updatedAt = now`, and `update` preserves it by refreshing
`updatedAt` to the current time, which the monotone clock keeps at or after
the task's creation time. -/
theorem timestamp_invariant (tasks : List Task) (clock : Nat)
    (h : Reachable tasks clock) :
    ∀ t ∈ tasks, t.createdAt ≤ t.updatedAt :=
  fun t ht => ((reachable_inv h).2 t ht).1

/-- Witness for C6: the task created at time 7 in a reachable state. -/
theorem timestamp_invariant_witness :
    (create [] 2 7 "Write report" "Q3 report").1.createdAt ≤
      (create [] 2 7 "Write report" "Q3 report").1.updatedAt :=
  timestamp_invariant (create [] 2 7 "Write report" "Q3 report").2 7
    (Reachable.step_create [] 0 2 7 "Write report" "Q3 report" Reachable.init
      (Nat.zero_le 7) (by simp))
    (create [] 2 7 "Write report" "Q3 report").1 (by simp [create])

end TodoApp
